import Mathlib

/-!
Verification of the pink terminal-UI rendering engine.

Shallow embedding of `src/pink/components.py` (visual-width measurement,
tree flattening, the Text / Panel / Input widgets) and `src/pink/runtime.py`
(the inline / fullscreen presentation engine).  Python strings are modelled
as `List Char`, Python `int` as `Int` (with `Nat` where the source value is
provably non-negative), and the terminal size queried from the OS is passed
in as an explicit parameter.
-/

namespace Pink

/-! ### Visual width measurement (components.py `_char_width` et al.) -/

/-- Combining-mark test, modelling `unicodedata.combining(ch) != 0`.
The Unicode combining-class table is embedded for the principal
combining-mark ranges exercised by this development; every character in
these ranges has a non-zero canonical combining class. -/
def is_combining (c : Char) : Bool :=
  let n := c.toNat
  (0x0300 ≤ n && n ≤ 0x034E) || (0x0350 ≤ n && n ≤ 0x036F) ||
  (0x0483 ≤ n && n ≤ 0x0487) || (0x0591 ≤ n && n ≤ 0x05BD) ||
  (n == 0x05BF) || (0x064B ≤ n && n ≤ 0x065F) || (n == 0x0670) ||
  (0x06D6 ≤ n && n ≤ 0x06DC) || (0x0E34 ≤ n && n ≤ 0x0E3A) ||
  (0x20D0 ≤ n && n ≤ 0x20DC) || (n == 0x20E1) ||
  (0xFE20 ≤ n && n ≤ 0xFE2F)

/-- East-Asian-width Wide / Fullwidth test, modelling
`unicodedata.east_asian_width(ch) in ("W", "F")` on the principal W/F
ranges of the Unicode East Asian Width table. -/
def is_east_asian_wide (c : Char) : Bool :=
  let n := c.toNat
  (0x1100 ≤ n && n ≤ 0x115F) || (0x2E80 ≤ n && n ≤ 0x2EF3) ||
  (0x2F00 ≤ n && n ≤ 0x2FD5) || (0x3000 ≤ n && n ≤ 0x303E) ||
  (0x3041 ≤ n && n ≤ 0x33FF) || (0x3400 ≤ n && n ≤ 0x4DBF) ||
  (0x4E00 ≤ n && n ≤ 0x9FFF) || (0xA000 ≤ n && n ≤ 0xA4CF) ||
  (0xAC00 ≤ n && n ≤ 0xD7A3) || (0xF900 ≤ n && n ≤ 0xFAFF) ||
  (0xFE30 ≤ n && n ≤ 0xFE4F) || (0xFF00 ≤ n && n ≤ 0xFF60) ||
  (0xFFE0 ≤ n && n ≤ 0xFFE6)

/-- Model of `_char_width`: 0 for combining marks, 2 for Wide/Fullwidth,
1 otherwise. -/
def char_width (c : Char) : Nat :=
  if is_combining c then 0
  else if is_east_asian_wide c then 2
  else 1

/-- Model of `_measure_width`: sum of character widths. -/
def measure_width (text : List Char) : Nat :=
  (text.map char_width).sum

/-- Model of `_pad_to_width`: pad with trailing spaces up to a target
visual width (`max 0` is Nat subtraction). -/
def pad_to_width (text : List Char) (width : Nat) : List Char :=
  text ++ List.replicate (width - measure_width text) ' '

/-- Model of Python `str.ljust(width, fill)`: pads by character count
(not by visual width) to the requested length. -/
def ljust (s : List Char) (width : Nat) (fill : Char) : List Char :=
  s ++ List.replicate (width - s.length) fill

/-! ### Line splitting (components.py `_text_to_lines`) -/

/-- Line-break character test, per the break set of Python
`str.splitlines` (LF, CR, VT, FF, FS, GS, RS, NEL, LS, PS). -/
def is_line_break (c : Char) : Bool :=
  c == '\n' || c == '\r' || c == '\x0b' || c == '\x0c' ||
  c == '\x1c' || c == '\x1d' || c == '\x1e' || c == '\u0085' ||
  c == '\u2028' || c == '\u2029'

/-- Segments of a string between line breaks; a CRLF pair counts as a
single break.  A string with k breaks yields k+1 segments. -/
def split_on_breaks : List Char → List (List Char)
  | [] => [[]]
  | '\r' :: '\n' :: rest => [] :: split_on_breaks rest
  | c :: rest =>
    if is_line_break c then [] :: split_on_breaks rest
    else
      match split_on_breaks rest with
      | [] => [[c]]
      | l :: ls => (c :: l) :: ls

/-- Number of line breaks in a string, a CRLF pair counting once. -/
def break_count : List Char → Nat
  | [] => 0
  | '\r' :: '\n' :: rest => break_count rest + 1
  | c :: rest => (if is_line_break c then 1 else 0) + break_count rest

/-- Model of Python `str.splitlines`: the segments between breaks, with
the final segment dropped when it is empty (so a trailing break does not
produce an extra empty line, and the empty string yields no lines). -/
def splitlines (s : List Char) : List (List Char) :=
  let segs := split_on_breaks s
  match segs.getLast? with
  | some [] => segs.dropLast
  | _ => segs

/-- Model of `_text_to_lines`: splitlines, with the empty result replaced
by a single empty line. -/
def text_to_lines (text : List Char) : List (List Char) :=
  let lines := splitlines text
  if lines.isEmpty then [[]] else lines

/-! ### RenderResult and the Input widget state -/

/-- Model of `RenderResult`: lines plus an optional 0-based caret
(row, col).  Every caret the code constructs has non-negative
coordinates, so the components are naturals. -/
structure RenderResult where
  lines : List (List Char)
  caret : Option (Nat × Nat) := none
  deriving DecidableEq, Repr

/-- Clamped bound of a Python slice endpoint: for a list of length n,
Python `l[:i]` keeps `min i n` elements when `i ≥ 0` and `max (n+i) 0`
elements when `i < 0`. -/
def slice_bound (n : Nat) (i : Int) : Nat :=
  if i < 0 then (n + i).toNat else min i.toNat n

/-- Model of Python `l[:i]`. -/
def pyTake (l : List α) (i : Int) : List α :=
  l.take (slice_bound l.length i)

/-- Model of Python `l[i:]`. -/
def pyDrop (l : List α) (i : Int) : List α :=
  l.drop (slice_bound l.length i)

/-- Model of the `Input` dataclass state: value, cursor (a Python int,
counted in characters), optional fixed width, bordered flag, inner
padding. -/
structure Input where
  value : List Char := []
  cursor : Int := 0
  width : Option Int := none
  bordered : Bool := true
  inner_padding : Int := 1
  deriving DecidableEq, Repr

/-- Model of `Input.insert`: splice text in at the cursor, advance the
cursor by the character length of the text. -/
def Input.insert (st : Input) (text : List Char) : Input :=
  { st with
    value := pyTake st.value st.cursor ++ text ++ pyDrop st.value st.cursor,
    cursor := st.cursor + text.length }

/-- Model of `Input.backspace`: when the cursor is positive, drop the
character before it and move the cursor left; otherwise do nothing. -/
def Input.backspace (st : Input) : Input :=
  if st.cursor > 0 then
    { st with
      value := pyTake st.value (st.cursor - 1) ++ pyDrop st.value st.cursor,
      cursor := st.cursor - 1 }
  else st

/-- Model of `Input.move_left`. -/
def Input.move_left (st : Input) : Input :=
  if st.cursor > 0 then { st with cursor := st.cursor - 1 } else st

/-- Model of `Input.move_right`. -/
def Input.move_right (st : Input) : Input :=
  if st.cursor < st.value.length then { st with cursor := st.cursor + 1 } else st

/-- Edit events delivered to an Input widget by the (external) input
loop: the four mutating operations of the dataclass. -/
inductive InputOp where
  | insert (text : List Char)
  | backspace
  | move_left
  | move_right
  deriving Repr

/-- Application of one edit operation. -/
def apply_op (st : Input) : InputOp → Input
  | .insert t => st.insert t
  | .backspace => st.backspace
  | .move_left => st.move_left
  | .move_right => st.move_right

/-- Application of a finite sequence of edit operations, in order. -/
def apply_ops (st : Input) (ops : List InputOp) : Input :=
  ops.foldl apply_op st

/-- The Input invariant: the cursor lies between 0 and the character
length of the value. -/
def cursor_in_range (st : Input) : Prop :=
  0 ≤ st.cursor ∧ st.cursor ≤ st.value.length

instance (st : Input) : Decidable (cursor_in_range st) :=
  inferInstanceAs (Decidable (_ ∧ _))

/-! ### Input rendering (components.py `Input._trim_to_width` / `Input.render`) -/

/-- Model of the while-loop of `Input._trim_to_width`: as long as the total
width (the sum of the remaining widths) exceeds the target, drop the
leftmost width, subtracting it from the cursor width (Nat subtraction is
the per-iteration floor at 0).  Returns the number of dropped characters
and the final cursor width. -/
def trim_drop : List Nat → Nat → Nat → Nat × Nat
  | [], cursor_w, _ => (0, cursor_w)
  | w :: rest, cursor_w, target =>
    if (w :: rest).sum > target then
      let p := trim_drop rest (cursor_w - w) target
      (p.1 + 1, p.2)
    else (0, cursor_w)

/-- Model of `Input._trim_to_width`: compute per-character widths and the
width of the text before the cursor, run the left-trim loop, then pad the
visible substring with trailing spaces to the target width.  Returns the
padded visible text and the cursor's visual column within it. -/
def Input.trim_to_width (st : Input) (target_width : Nat) : List Char × Nat :=
  let widths := st.value.map char_width
  let cursor_w := (pyTake widths st.cursor).sum
  let p := trim_drop widths cursor_w target_width
  let visible := st.value.drop p.1
  let padded := visible ++ List.replicate (target_width - measure_width visible) ' '
  (padded, p.2)

/-- Target width of an Input render: the fixed width when set, else the
terminal column count less 2 when bordered (never below 1). -/
def Input.target_width (term_cols : Int) (st : Input) : Int :=
  match st.width with
  | some w => w
  | none => max 1 (term_cols - (if st.bordered then 2 else 0))

/-- Inner width of an Input render: the target width less the inner
padding on both sides, never below 1. -/
def Input.inner_width (term_cols : Int) (st : Input) : Nat :=
  (max 1 (st.target_width term_cols - st.inner_padding.toNat * 2)).toNat

/-- Model of `Input.render`.  The terminal column count (with its 80-column
fallback) is the `term_cols` parameter; it is consulted only when the
widget has no fixed width. -/
def Input.render (term_cols : Int) (st : Input) : RenderResult :=
  let ip := st.inner_padding.toNat
  let target_width := st.target_width term_cols
  let inner_width := st.inner_width term_cols
  let tc := st.trim_to_width inner_width
  let content := tc.1
  let padded_content := List.replicate ip ' ' ++ content ++ List.replicate ip ' '
  let cursor_col := tc.2 + ip
  if st.bordered then
    let bar := '+' :: List.replicate target_width.toNat '-' ++ ['+']
    { lines := [bar, '|' :: padded_content ++ ['|'], bar],
      caret := some (1, 1 + cursor_col) }
  else
    { lines := [content], caret := some (0, cursor_col) }

/-! ### Panel rendering (components.py `Panel.render`) -/

/-- Title label of a Panel: a space-surrounded title when one is set and
non-empty (Python truthiness), else the empty string. -/
def panel_label (title : Option (List Char)) : List Char :=
  match title with
  | some t => if t.isEmpty then [] else ' ' :: t ++ [' ']
  | none => []

/-- Maximal visual width over the child lines (0 when there are none). -/
def panel_inner_width (body : List (List Char)) : Nat :=
  (body.map measure_width).foldr max 0

/-- Content width of a Panel: inner width plus padding on both sides,
widened to the label's visual width. -/
def panel_content_width (body : List (List Char)) (title : Option (List Char))
    (padding : Int) : Nat :=
  max (panel_inner_width body + padding.toNat * 2) (measure_width (panel_label title))

/-- Model of `Panel.render`, applied to the already-flattened child
result.  Note that the final `ljust` of each body row pads by character
count, exactly as Python `str.ljust` does. -/
def panel_render (child : RenderResult) (title : Option (List Char))
    (padding : Int) : RenderResult :=
  let body := child.lines
  let inner_width := panel_inner_width body
  let pad := padding.toNat
  let content_width := panel_content_width body title padding
  let label := panel_label title
  let top_bar :=
    if label.isEmpty then List.replicate content_width '-'
    else ljust label content_width '-'
  let empty_row : List Char := List.replicate content_width ' '
  let body_rows := body.map (fun line =>
    let padded_line := pad_to_width line inner_width
    let padded := List.replicate pad ' ' ++ padded_line ++ List.replicate pad ' '
    '|' :: ljust padded content_width ' ' ++ ['|'])
  let lines :=
    ('+' :: top_bar ++ ['+'])
      :: (List.replicate pad ('|' :: empty_row ++ ['|'])
          ++ body_rows
          ++ List.replicate pad ('|' :: empty_row ++ ['|'])
          ++ [('+' :: List.replicate content_width '-' ++ ['+'])])
  let caret :=
    match child.caret with
    | some rc => some (1 + pad + rc.1, 1 + pad + rc.2)
    | none => none
  { lines := lines, caret := caret }

/-! ### The Renderable tree and flattening (components.py `_render_node`) -/

/-- Closed model of the `Renderable` union: the three widgets, raw text,
an ordered sequence, and `other` standing for a value of any unsupported
kind (matched by no `isinstance` branch of `_render_node`). -/
inductive Node where
  | text (value : List Char)
  | panel (child : Node) (title : Option (List Char)) (padding : Int)
  | input (st : Input)
  | raw (s : List Char)
  | seq (children : List Node)
  | other
  deriving Repr

/-- The single error kind of the core: the TypeError raised by
`_render_node` on an unrenderable node. -/
inductive RenderError where
  | unrenderable
  deriving DecidableEq, Repr

/-- One iteration of the sequence loop of `_render_node`: record the
running line count, append the child's lines, and overwrite the running
caret whenever the child supplied one. -/
def seq_step (acc : List (List Char) × Option (Nat × Nat))
    (result : RenderResult) : List (List Char) × Option (Nat × Nat) :=
  let base_row := acc.1.length
  (acc.1 ++ result.lines,
   match result.caret with
   | some rc => some (base_row + rc.1, rc.2)
   | none => acc.2)

/-- Combination of the child results of a sequence node, starting from no
lines and no caret. -/
def seq_combine (results : List RenderResult) : RenderResult :=
  let p := results.foldl seq_step ([], none)
  { lines := p.1, caret := p.2 }

mutual

/-- Model of `_render_node` (and `render_to_lines`): dispatch on the node
kind; widgets render themselves, raw text splits into lines, a sequence
renders its children in order and combines them, and anything else is a
fatal unrenderable-node error. -/
def render_node (term_cols : Int) : Node → Except RenderError RenderResult
  | .text v => .ok { lines := text_to_lines v, caret := none }
  | .panel child title padding =>
    match render_node term_cols child with
    | .ok cr => .ok (panel_render cr title padding)
    | .error e => .error e
  | .input st => .ok (st.render term_cols)
  | .raw s => .ok { lines := text_to_lines s, caret := none }
  | .seq cs =>
    match render_list term_cols cs with
    | .ok rs => .ok (seq_combine rs)
    | .error e => .error e
  | .other => .error .unrenderable

/-- Renders the children of a sequence node in order, stopping at the
first error, exactly as the Python loop propagates the exception of the
first failing child. -/
def render_list (term_cols : Int) : List Node → Except RenderError (List RenderResult)
  | [] => .ok []
  | c :: cs =>
    match render_node term_cols c with
    | .ok r =>
      match render_list term_cols cs with
      | .ok rs => .ok (r :: rs)
      | .error e => .error e
    | .error e => .error e

end

mutual

/-- Whether a tree contains a node of an unsupported kind. -/
def contains_other : Node → Bool
  | .text _ => false
  | .panel child _ _ => contains_other child
  | .input _ => false
  | .raw _ => false
  | .seq cs => contains_other_list cs
  | .other => true

/-- Whether any node of a list of children contains an unsupported node. -/
def contains_other_list : List Node → Bool
  | [] => false
  | c :: cs => contains_other c || contains_other_list cs

end

/-! ### Presentation engine (runtime.py `Renderer`) -/

def CSI : String := "\x1b["

/-- Clear screen, clear scrollback, home cursor. -/
def CLEAR_TERMINAL : String := CSI ++ "2J" ++ CSI ++ "3J" ++ CSI ++ "H"

def HIDE_CURSOR : String := CSI ++ "?25l"

def SHOW_CURSOR : String := CSI ++ "?25h"

/-- Session state of a `Renderer` instance: cursor-hidden flag, inline
mode flag, and the inline anchor row (the row, relative to the block top,
where the cursor was last left). -/
structure RendererState where
  cursor_hidden : Bool := false
  inline_mode : Bool := true
  inline_anchor_row : Option Nat := none
  deriving DecidableEq, Repr

/-- State of a freshly constructed `Renderer` (its `__init__`). -/
def Renderer.init : RendererState := {}

/-- Lines joined with carriage-return plus linefeed. -/
def join_crlf (lines : List (List Char)) : String :=
  String.mk (List.intercalate ['\r', '\n'] lines)

/-- Model of `Renderer._render_fullscreen`: the escape-sequence stream it
writes.  Clears screen and scrollback, writes all lines, then positions
the cursor (clamping a caret into the visible window, or placing it at
the last visible row when `place_cursor_after` is set). -/
def render_fullscreen (lines : List (List Char)) (caret : Option (Nat × Nat))
    (place_cursor_after : Bool) (rows : Nat) : String :=
  let out := CLEAR_TERMINAL ++ join_crlf lines
  match caret, place_cursor_after with
  | some rc, false =>
    let visible_start := lines.length - rows
    let row := min (rows - 1) (rc.1 - visible_start)
    out ++ CSI ++ toString (row + 1) ++ ";" ++ toString (rc.2 + 1) ++ "H"
  | _, true =>
    let target_row := if lines.length ≥ rows then rows - 1 else lines.length - 1
    out ++ CSI ++ toString (target_row + 1) ++ ";1H"
  | _, _ => out

/-- Model of `Renderer._render_inline`: the stream it writes, plus the new
anchor row.  Moves back to the block top when an anchor exists, erases to
the end of the screen, writes the lines, and repositions the cursor
relative to the block top. -/
def render_inline (lines : List (List Char)) (caret : Option (Nat × Nat))
    (place_cursor_after : Bool) (anchor : Option Nat) : String × Nat :=
  let move_back :=
    match anchor with
    | some a => "\r" ++ (if a ≠ 0 then CSI ++ toString a ++ "A" else "")
    | none => ""
  let height := lines.length
  let target : Nat × Nat :=
    match caret, place_cursor_after with
    | some rc, false => rc
    | _, _ => (height - 1, 0)
  let reposition :=
    "\r" ++ (if height > 1 then CSI ++ toString (height - 1) ++ "A" else "")
      ++ (if target.1 > 0 then CSI ++ toString target.1 ++ "B" else "")
      ++ CSI ++ toString (target.2 + 1) ++ "G"
  (move_back ++ CSI ++ "0J" ++ join_crlf lines ++ reposition, target.1)

/-- Arguments of one `Renderer.present` call, together with the terminal
row count queried from the OS during that call (fallback 24). -/
structure PresentCall where
  lines : List (List Char)
  caret : Option (Nat × Nat) := none
  place_cursor_after : Bool := false
  term_rows : Int := 24
  deriving DecidableEq, Repr

/-- Result of one `present` call: everything written to stdout, which
redraw strategy ran, and the successor session state. -/
structure PresentOutcome where
  output : String
  fullscreen_used : Bool
  state : RendererState
  deriving DecidableEq, Repr

/-- Model of `Renderer.present`: replace empty content by one empty line,
toggle cursor visibility, switch irreversibly to fullscreen when the
content is taller than the terminal, then run the selected strategy. -/
def present (s : RendererState) (call : PresentCall) : PresentOutcome :=
  let lines := if call.lines.isEmpty then [[]] else call.lines
  let hide_cursor := call.caret.isNone
  let vis :=
    if hide_cursor && !s.cursor_hidden then (HIDE_CURSOR, true)
    else if !hide_cursor && s.cursor_hidden then (SHOW_CURSOR, false)
    else ("", s.cursor_hidden)
  let rows := (max 1 call.term_rows).toNat
  let content_height := lines.length
  let mode_anchor :=
    if s.inline_mode && content_height > rows then (false, (none : Option Nat))
    else (s.inline_mode, s.inline_anchor_row)
  if mode_anchor.1 then
    let r := render_inline lines call.caret call.place_cursor_after mode_anchor.2
    { output := vis.1 ++ r.1, fullscreen_used := false,
      state := { cursor_hidden := vis.2, inline_mode := true,
                 inline_anchor_row := some r.2 } }
  else
    { output := vis.1 ++ render_fullscreen lines call.caret call.place_cursor_after rows,
      fullscreen_used := true,
      state := { cursor_hidden := vis.2, inline_mode := false,
                 inline_anchor_row := mode_anchor.2 } }

/-- Model of `Renderer.close`: show the cursor again when it is hidden. -/
def Renderer.close (s : RendererState) : String × RendererState :=
  if s.cursor_hidden then (SHOW_CURSOR, { s with cursor_hidden := false })
  else ("", s)

/-- Folds `present` over a sequence of calls on one instance, collecting
the redraw-strategy flag of every call. -/
def present_all (s : RendererState) : List PresentCall → RendererState × List Bool
  | [] => (s, [])
  | c :: cs =>
    let o := present s c
    let p := present_all o.state cs
    (p.1, o.fullscreen_used :: p.2)

/-- Decidable equality of render outcomes. -/
instance {ε α : Type} [DecidableEq ε] [DecidableEq α] : DecidableEq (Except ε α) := fun x y =>
  match x, y with
  | .ok a, .ok b =>
    if h : a = b then .isTrue (by rw [h]) else .isFalse (by simp [h])
  | .error a, .error b =>
    if h : a = b then .isTrue (by rw [h]) else .isFalse (by simp [h])
  | .ok _, .error _ => .isFalse (by simp)
  | .error _, .ok _ => .isFalse (by simp)

/-! ## Theorems -/

/-- C7, counterexample.  The Scenario A block of the spec claims the top
border is `+  T -+` (two spaces before the title); the code renders the
title label ` T ` left-justified with dash fill to content width 4, which
gives `+ T -+`.  The claimed six-line output therefore does not match the
render at the scenario's own input. -/
theorem c7_panel_top_border_cex :
    (render_node 80 (.panel (.seq [.text "a".toList, .text "bb".toList])
        (some "T".toList) 1)).map (fun r => r.lines.map String.mk)
      ≠ .ok ["+  T -+", "|    |", "| a  |", "| bb |", "|    |", "+----+"] := by
  decide

/-- C7, amended.  Flattening `Panel([Text "a", Text "bb"], title := "T",
padding := 1)` yields exactly six lines with top border `+ T -+` (the
label ` T ` left-justified with dash fill), inner width 2, content width
4, and no caret. -/
theorem c7_panel_render_eg :
    render_node 80 (.panel (.seq [.text "a".toList, .text "bb".toList])
        (some "T".toList) 1)
      = .ok { lines := ["+ T -+".toList, "|    |".toList, "| a  |".toList,
                        "| bb |".toList, "|    |".toList, "+----+".toList],
              caret := none }
    ∧ panel_inner_width ["a".toList, "bb".toList] = 2
    ∧ panel_content_width ["a".toList, "bb".toList] (some "T".toList) 1 = 4
    ∧ panel_label (some "T".toList) = " T ".toList
    ∧ ljust " T ".toList 4 '-' = " T -".toList := by
  decide

/-- C4, counterexample.  The string "a\n" contains one line break, but
Python splitlines drops the empty final segment, so flattening
`Text "a\n"` yields one line, not the two lines the claim's
"N breaks gives N+1 lines" rule demands. -/
theorem c4_trailing_break_cex :
    render_node 80 (.text ['a', '\n']) = .ok { lines := [['a']], caret := none }
    ∧ break_count ['a', '\n'] = 1
    ∧ (text_to_lines ['a', '\n']).length ≠ break_count ['a', '\n'] + 1 := by
  decide

/-- C5, counterexample.  For an unbordered Input with inner padding 1
(value "hi", cursor 0, width 5) the code renders the single line `hi `
(the visible text padded to the inner width only), not the
padding-surrounded ` hi  ` the claim describes; the caret column still
includes the inner padding. -/
theorem c5_unbordered_line_cex :
    (Input.render 80 ⟨"hi".toList, 0, some 5, false, 1⟩).lines ≠ [" hi  ".toList]
    ∧ Input.render 80 ⟨"hi".toList, 0, some 5, false, 1⟩
      = { lines := ["hi ".toList], caret := some (0, 1) } := by
  decide

/-- C10, counterexample.  A Panel around the wide character U+3042 (あ):
the body row is right-padded by character count (`str.ljust`), so its
visual width is 5 while the borders and the claimed value
contentWidth + 2 are 4 — the lines do not all share one visual width. -/
theorem c10_wide_char_width_cex :
    render_node 80 (.panel (.raw "あ".toList) none 0)
      = .ok { lines := ["+--+".toList, "|あ |".toList, "+--+".toList],
              caret := none }
    ∧ panel_content_width ["あ".toList] none 0 = 2
    ∧ measure_width "|あ |".toList = 5
    ∧ measure_width "+--+".toList = 4 := by
  decide

/-- Helper: every single edit operation preserves the cursor invariant. -/
theorem apply_op_preserves (st : Input) (h : cursor_in_range st) (op : InputOp) :
    cursor_in_range (apply_op st op) := by
  obtain ⟨h0, h1⟩ := h
  cases op with
  | insert t =>
    simp only [apply_op, Input.insert, cursor_in_range, pyTake, pyDrop, slice_bound,
      List.length_append, List.length_take, List.length_drop]
    rw [if_neg (by omega)]
    constructor
    · omega
    · push_cast
      omega
  | backspace =>
    simp only [apply_op, Input.backspace]
    split
    · simp only [cursor_in_range, pyTake, pyDrop, slice_bound,
        List.length_append, List.length_take, List.length_drop]
      rw [if_neg (by omega), if_neg (by omega)]
      constructor
      · omega
      · push_cast
        omega
    · exact ⟨h0, h1⟩
  | move_left =>
    simp only [apply_op, Input.move_left]
    split
    · simp only [cursor_in_range]
      omega
    · exact ⟨h0, h1⟩
  | move_right =>
    simp only [apply_op, Input.move_right]
    split
    · simp only [cursor_in_range]
      omega
    · exact ⟨h0, h1⟩

/-- Helper: every finite sequence of edit operations preserves the cursor
invariant. -/
theorem apply_ops_preserves (ops : List InputOp) :
    ∀ st : Input, cursor_in_range st → cursor_in_range (apply_ops st ops) := by
  induction ops with
  | nil => intro st h; exact h
  | cons op ops ih =>
    intro st h
    exact ih (apply_op st op) (apply_op_preserves st h op)

/-- C3.  From any state satisfying 0 ≤ cursor ≤ length value, every finite
sequence of insert / backspace / move_left / move_right calls keeps the
invariant (hence it holds after each call of the sequence), and the
out-of-range calls — backspace or move_left at cursor 0, move_right at
cursor = length — leave the state unchanged. -/
theorem input_cursor_invariant (st : Input) (h : cursor_in_range st) :
    (∀ ops : List InputOp, cursor_in_range (apply_ops st ops))
    ∧ (st.cursor = 0 → st.backspace = st ∧ st.move_left = st)
    ∧ (st.cursor = st.value.length → st.move_right = st) := by
  refine ⟨fun ops => apply_ops_preserves ops st h, fun h0 => ⟨?_, ?_⟩, fun hn => ?_⟩
  · simp [Input.backspace, h0]
  · simp [Input.move_left, h0]
  · simp [Input.move_right, hn]

/-- C3, witness at a concrete state and operation sequence. -/
theorem input_cursor_invariant_witness :
    cursor_in_range
      (apply_ops ⟨"ab".toList, 1, none, true, 1⟩
        [.insert "xy".toList, .backspace, .move_left, .move_right])
    ∧ (Input.backspace ⟨"ab".toList, 0, none, true, 1⟩ = ⟨"ab".toList, 0, none, true, 1⟩) :=
  ⟨(input_cursor_invariant ⟨"ab".toList, 1, none, true, 1⟩ (by decide)).1 _,
   ((input_cursor_invariant ⟨"ab".toList, 0, none, true, 1⟩ (by decide)).2.1 rfl).1⟩

/-- Helper: the trim loop drops the least number of leading characters
that brings the total remaining width within the target. -/
theorem trim_drop_least (ws : List Nat) :
    ∀ cw target : Nat,
      (ws.drop (trim_drop ws cw target).1).sum ≤ target
      ∧ (∀ j, j < (trim_drop ws cw target).1 → target < (ws.drop j).sum) := by
  induction ws with
  | nil =>
    intro cw target
    simp [trim_drop]
  | cons w rest ih =>
    intro cw target
    simp only [trim_drop]
    split
    · refine ⟨?_, ?_⟩
      · simpa using (ih (cw - w) target).1
      · intro j hj
        cases j with
        | zero => simpa using ‹(w :: rest).sum > target›
        | succ j' =>
          have := (ih (cw - w) target).2 j' (by simpa using hj)
          simpa using this
    · refine ⟨?_, ?_⟩
      · simpa using Nat.le_of_not_lt ‹¬(w :: rest).sum > target›
      · intro j hj
        simp at hj

/-- Helper: the final cursor width of the trim loop is the initial cursor
width with the width of each dropped character subtracted in turn, each
subtraction floored at 0 (Nat subtraction). -/
theorem trim_drop_cursor (ws : List Nat) :
    ∀ cw target : Nat,
      (trim_drop ws cw target).2
        = (ws.take (trim_drop ws cw target).1).foldl (fun a w => a - w) cw := by
  induction ws with
  | nil =>
    intro cw target
    simp [trim_drop]
  | cons w rest ih =>
    intro cw target
    simp only [trim_drop]
    split
    · simpa using ih (cw - w) target
    · simp

/-- C6.  The left-trim window of Input: the loop drops leftmost
characters exactly while the total visual width of the remainder exceeds
the target (the drop count is minimal), the cursor's visual column is the
initial cursor width less the widths of the dropped characters with each
subtraction floored at 0, and Scenario C holds: for inner width 5,
value "hello world", cursor 11, the visible text is "world" (visual
width 5) with the visible cursor column 5, the end of the window. -/
theorem trim_window_spec :
    (∀ (ws : List Nat) (cw target : Nat),
      (ws.drop (trim_drop ws cw target).1).sum ≤ target
      ∧ (∀ j, j < (trim_drop ws cw target).1 → target < (ws.drop j).sum)
      ∧ (trim_drop ws cw target).2
          = (ws.take (trim_drop ws cw target).1).foldl (fun a w => a - w) cw)
    ∧ Input.trim_to_width ⟨"hello world".toList, 11, none, true, 1⟩ 5
        = ("world".toList, 5)
    ∧ measure_width "world".toList = 5 := by
  refine ⟨fun ws cw target => ⟨(trim_drop_least ws cw target).1,
    (trim_drop_least ws cw target).2, trim_drop_cursor ws cw target⟩, by decide, by decide⟩

/-- C6, witness: the trim characterization applied at the Scenario C
widths (all 1) with inner width 5. -/
theorem trim_window_spec_witness :
    (([1, 1, 1, 1, 1, 1, 1, 1, 1, 1, 1] : List Nat).drop
        (trim_drop [1, 1, 1, 1, 1, 1, 1, 1, 1, 1, 1] 11 5).1).sum ≤ 5
    ∧ (trim_drop [1, 1, 1, 1, 1, 1, 1, 1, 1, 1, 1] 11 5).2
        = (([1, 1, 1, 1, 1, 1, 1, 1, 1, 1, 1] : List Nat).take
            (trim_drop [1, 1, 1, 1, 1, 1, 1, 1, 1, 1, 1] 11 5).1).foldl
              (fun a w => a - w) 11 :=
  ⟨(trim_window_spec.1 [1, 1, 1, 1, 1, 1, 1, 1, 1, 1, 1] 11 5).1,
   (trim_window_spec.1 [1, 1, 1, 1, 1, 1, 1, 1, 1, 1, 1] 11 5).2.2⟩

/-- Helper: flattening fails (necessarily with the unrenderable-node
error, the only error kind) exactly on trees containing an unsupported
node; likewise for child lists. -/
theorem render_error_iff_aux (tc : Int) :
    (∀ n, (render_node tc n = .error .unrenderable ↔ contains_other n = true))
    ∧ (∀ cs, (render_list tc cs = .error .unrenderable
        ↔ contains_other_list cs = true)) := by
  refine render_node.mutual_induct tc
    (fun n => render_node tc n = .error .unrenderable ↔ contains_other n = true)
    (fun cs => render_list tc cs = .error .unrenderable ↔ contains_other_list cs = true)
    ?_ ?_ ?_ ?_ ?_ ?_ ?_ ?_ ?_ ?_ ?_ ?_
  · intro v
    simp [render_node, contains_other]
  · intro a t p cr hok ih
    simp [render_node, hok, contains_other, ← ih]
  · intro a t p e herr ih
    cases e
    simp [render_node, herr, contains_other, ← ih]
  · intro st
    simp [render_node, contains_other]
  · intro s
    simp [render_node, contains_other]
  · intro cs rs hok ih
    simp [render_node, hok, contains_other, ← ih]
  · intro cs e herr ih
    cases e
    simp [render_node, herr, contains_other, ← ih]
  · simp [render_node, contains_other]
  · simp [render_list, contains_other_list]
  · intro c cs cr hok rs hoks ih1 ih2
    simp [render_list, hok, hoks, contains_other_list, ← ih1, ← ih2]
  · intro c cs cr hok e herr ih1 ih2
    cases e
    simp [render_list, hok, herr, contains_other_list, ← ih1, ← ih2]
  · intro c cs e herr ih1
    cases e
    simp [render_list, herr, contains_other_list, ← ih1]

/-- C8.  Flattening fails with the unrenderable-node error exactly when
the tree contains a node that is neither a widget, raw text, nor an
ordered sequence; the unrenderable error is the only failure, and a tree
built solely of supported kinds always renders successfully. -/
theorem render_error_iff_unrenderable (tc : Int) (n : Node) :
    (render_node tc n = .error .unrenderable ↔ contains_other n = true)
    ∧ (contains_other n = false → ∃ r, render_node tc n = .ok r) := by
  have h := (render_error_iff_aux tc).1 n
  refine ⟨h, fun hf => ?_⟩
  cases hr : render_node tc n with
  | ok r => exact ⟨r, rfl⟩
  | error e =>
    cases e
    exact absurd (h.mp hr) (by simp [hf])

/-- C8, witness: a sequence containing an unsupported node fails with the
unrenderable error, and a supported tree renders successfully. -/
theorem render_error_iff_unrenderable_witness :
    render_node 80 (.seq [.text "x".toList, .other]) = .error .unrenderable
    ∧ ∃ r, render_node 80 (.seq [.text "x".toList, .raw "y".toList]) = .ok r :=
  ⟨(render_error_iff_unrenderable 80 (.seq [.text "x".toList, .other])).1.mpr (by decide),
   (render_error_iff_unrenderable 80 (.seq [.text "x".toList, .raw "y".toList])).2 (by decide)⟩

/-- Helper: an Input render always places its caret row inside its
lines (row 1 of 3 when bordered, row 0 of 1 otherwise). -/
theorem input_render_caret_lt (tc : Int) (st : Input) (row col : Nat)
    (h : (st.render tc).caret = some (row, col)) :
    row < (st.render tc).lines.length := by
  cases hb : st.bordered <;> simp [Input.render, hb] at h ⊢ <;> omega

/-- Helper: the Panel caret offset keeps the caret row inside the Panel's
lines whenever the child's caret row was inside the child's lines. -/
theorem panel_render_caret_lt (cr : RenderResult) (title : Option (List Char))
    (padding : Int)
    (hchild : ∀ row col, cr.caret = some (row, col) → row < cr.lines.length)
    (row col : Nat) (h : (panel_render cr title padding).caret = some (row, col)) :
    row < (panel_render cr title padding).lines.length := by
  simp only [panel_render] at h ⊢
  cases hc : cr.caret with
  | none => rw [hc] at h; simp at h
  | some rc =>
    rw [hc] at h
    simp only [Option.some.injEq, Prod.mk.injEq] at h
    have hlt := hchild rc.1 rc.2 (by rw [hc])
    simp only [List.length_cons, List.length_append, List.length_replicate,
      List.length_map]
    omega

/-- Helper: the sequence fold keeps the running caret row inside the
accumulated lines. -/
theorem seq_fold_caret_lt (rs : List RenderResult) :
    ∀ (l0 : List (List Char)) (c0 : Option (Nat × Nat)),
      (∀ r ∈ rs, ∀ row col, r.caret = some (row, col) → row < r.lines.length) →
      (∀ row col, c0 = some (row, col) → row < l0.length) →
      ∀ row col, (rs.foldl seq_step (l0, c0)).2 = some (row, col) →
        row < (rs.foldl seq_step (l0, c0)).1.length := by
  induction rs with
  | nil =>
    intro l0 c0 _ hacc row col h
    simpa using hacc row col (by simpa using h)
  | cons r rest ih =>
    intro l0 c0 hall hacc row col h
    rw [List.foldl_cons] at h ⊢
    refine ih _ _ (fun x hx => hall x (List.mem_cons_of_mem r hx)) ?_ row col h
    intro row' col' hc
    simp only [seq_step] at hc ⊢
    cases hcr : r.caret with
    | none =>
      rw [hcr] at hc
      have := hacc row' col' hc
      simp only [List.length_append]
      omega
    | some rc =>
      rw [hcr] at hc
      simp only [Option.some.injEq, Prod.mk.injEq] at hc
      have hlt := hall r (List.mem_cons_self r rest) rc.1 rc.2 (by rw [hcr])
      simp only [List.length_append]
      omega

/-- Helper: every successful render places the caret row inside the
produced lines; likewise for every result of a rendered child list. -/
theorem caret_lt_aux (tc : Int) :
    (∀ n, ∀ r, render_node tc n = .ok r →
       ∀ row col, r.caret = some (row, col) → row < r.lines.length)
    ∧ (∀ cs, ∀ rs, render_list tc cs = .ok rs →
       ∀ r ∈ rs, ∀ row col, r.caret = some (row, col) → row < r.lines.length) := by
  refine render_node.mutual_induct tc _ _ ?_ ?_ ?_ ?_ ?_ ?_ ?_ ?_ ?_ ?_ ?_ ?_
  · intro v r hr row col hc
    simp only [render_node, Except.ok.injEq] at hr
    subst hr
    simp at hc
  · intro a t p cr hok ih r hr row col hc
    simp only [render_node, hok, Except.ok.injEq] at hr
    subst hr
    exact panel_render_caret_lt cr t p (ih cr hok) row col hc
  · intro a t p e herr ih r hr row col hc
    simp [render_node, herr] at hr
  · intro st r hr row col hc
    simp only [render_node, Except.ok.injEq] at hr
    subst hr
    exact input_render_caret_lt tc st row col hc
  · intro s r hr row col hc
    simp only [render_node, Except.ok.injEq] at hr
    subst hr
    simp at hc
  · intro cs rs hok ih r hr row col hc
    simp only [render_node, hok, Except.ok.injEq] at hr
    subst hr
    simp only [seq_combine] at hc ⊢
    exact seq_fold_caret_lt rs [] none (ih rs hok) (by simp) row col hc
  · intro cs e herr ih r hr row col hc
    simp [render_node, herr] at hr
  · intro r hr row col hc
    simp [render_node] at hr
  · intro rs hr r hmem row col hc
    simp only [render_list, Except.ok.injEq] at hr
    subst hr
    simp at hmem
  · intro c cs cr hok rs hoks ih1 ih2 rs' hr r hmem row col hc
    simp only [render_list, hok, hoks, Except.ok.injEq] at hr
    subst hr
    rcases List.mem_cons.mp hmem with rfl | hmem'
    · exact ih1 r hok row col hc
    · exact ih2 rs hoks r hmem' row col hc
  · intro c cs cr hok e herr ih1 ih2 rs' hr
    simp [render_list, hok, herr] at hr
  · intro c cs e herr ih1 rs' hr
    simp [render_list, herr] at hr

/-- C9.  For every tree that flattens successfully, a non-null caret
(row, col) of the result satisfies 0 ≤ row < number of lines and
0 ≤ col. -/
theorem caret_in_bounds (tc : Int) (n : Node) (r : RenderResult)
    (h : render_node tc n = .ok r) (row col : Nat)
    (hc : r.caret = some (row, col)) :
    row < r.lines.length ∧ 0 ≤ col :=
  ⟨(caret_lt_aux tc).1 n r h row col hc, Nat.zero_le col⟩

/-- C9, witness at a concrete bordered Input widget. -/
theorem caret_in_bounds_witness :
    1 < (Input.render 80 ⟨"hello".toList, 5, some 10, true, 1⟩).lines.length
    ∧ 0 ≤ 7 :=
  caret_in_bounds 80 (.input ⟨"hello".toList, 5, some 10, true, 1⟩) _ rfl 1 7
    (by decide)

/-- Helper: the sequence fold appends the lines of every child result,
in order, after the accumulator. -/
theorem seq_fold_lines (rs : List RenderResult) :
    ∀ (l0 : List (List Char)) (c0 : Option (Nat × Nat)),
      (rs.foldl seq_step (l0, c0)).1 = l0 ++ (rs.map (fun x => x.lines)).join := by
  induction rs with
  | nil => intro l0 c0; simp
  | cons r rest ih =>
    intro l0 c0
    rw [List.foldl_cons]
    simp only [seq_step]
    rw [ih]
    simp [List.append_assoc]

/-- Helper: after the sequence fold, either no child produced a caret and
the accumulator caret survives, or the child list splits around a last
caret-producing child, whose caret (offset by the accumulated and
preceding line counts) is the final one. -/
theorem seq_fold_last_caret (rs : List RenderResult) :
    ∀ (l0 : List (List Char)) (c0 : Option (Nat × Nat)),
      ((∀ x ∈ rs, x.caret = none) ∧ (rs.foldl seq_step (l0, c0)).2 = c0)
      ∨ (∃ pre mid post, rs = pre ++ mid :: post
          ∧ (∀ x ∈ post, x.caret = none)
          ∧ ∃ row col, mid.caret = some (row, col)
            ∧ (rs.foldl seq_step (l0, c0)).2
                = some (l0.length + (pre.map (fun x => x.lines.length)).sum + row, col)) := by
  induction rs using List.reverseRecOn with
  | nil => intro l0 c0; left; simp
  | append_singleton rest r ih =>
    intro l0 c0
    rw [List.foldl_append, List.foldl_cons, List.foldl_nil]
    have hlen : (rest.foldl seq_step (l0, c0)).1.length
        = l0.length + (rest.map (fun x => x.lines.length)).sum := by
      rw [seq_fold_lines]
      simp [List.length_join, List.map_map, Function.comp_def]
    cases hcr : r.caret with
    | some rc =>
      right
      refine ⟨rest, r, [], by simp, by simp, rc.1, rc.2, by rw [hcr], ?_⟩
      simp only [seq_step, hcr]
      rw [hlen]
    | none =>
      have hstep : (seq_step (rest.foldl seq_step (l0, c0)) r).2
          = (rest.foldl seq_step (l0, c0)).2 := by
        simp [seq_step, hcr]
      rcases ih l0 c0 with ⟨hnone, heq⟩ | ⟨pre, mid, post, hsplit, hpost, row, col, hmid, heq⟩
      · left
        refine ⟨?_, by rw [hstep, heq]⟩
        intro x hx
        rcases List.mem_append.mp hx with hx' | hx'
        · exact hnone x hx'
        · simp only [List.mem_singleton] at hx'
          subst hx'
          exact hcr
      · right
        refine ⟨pre, mid, post ++ [r], by rw [hsplit]; simp, ?_, row, col, hmid,
          by rw [hstep, heq]⟩
        intro x hx
        rcases List.mem_append.mp hx with hx' | hx'
        · exact hpost x hx'
        · simp only [List.mem_singleton] at hx'
          subst hx'
          exact hcr

/-- C1.  For every successfully flattened ordered sequence, the lines are
the children's lines concatenated in order, and the caret is determined
by the last child in iteration order whose render produced a caret,
offset by the total line count of all preceding children; carets of
earlier siblings are discarded, and with no caret-producing child the
sequence's caret is null. -/
theorem seq_caret_last_child_wins (tc : Int) (cs : List Node) (r : RenderResult)
    (h : render_node tc (.seq cs) = .ok r) :
    ∃ rs, render_list tc cs = .ok rs
      ∧ r.lines = (rs.map (fun x => x.lines)).join
      ∧ (((∀ x ∈ rs, x.caret = none) ∧ r.caret = none)
        ∨ (∃ pre mid post, rs = pre ++ mid :: post
            ∧ (∀ x ∈ post, x.caret = none)
            ∧ ∃ row col, mid.caret = some (row, col)
              ∧ r.caret = some ((pre.map (fun x => x.lines.length)).sum + row, col))) := by
  cases hl : render_list tc cs with
  | error e => simp [render_node, hl] at h
  | ok rs =>
    simp only [render_node, hl, Except.ok.injEq] at h
    subst h
    refine ⟨rs, rfl, by simp [seq_combine, seq_fold_lines], ?_⟩
    rcases seq_fold_last_caret rs [] none
      with ⟨hnone, heq⟩ | ⟨pre, mid, post, hs, hp, row, col, hm, heq⟩
    · left
      exact ⟨hnone, by simp [seq_combine, heq]⟩
    · right
      refine ⟨pre, mid, post, hs, hp, row, col, hm, ?_⟩
      simp only [seq_combine]
      rw [heq]
      simp


/-- C1, witness at a concrete sequence whose last caret-producing child
is an Input widget. -/
theorem seq_caret_last_child_wins_witness :
    ∃ rs, render_list 80 [Node.text "t".toList,
        Node.input ⟨"y".toList, 0, some 4, true, 1⟩] = .ok rs := by
  obtain ⟨rs, h1, -, -⟩ := seq_caret_last_child_wins 80
    [Node.text "t".toList, Node.input ⟨"y".toList, 0, some 4, true, 1⟩] _ rfl
  exact ⟨rs, h1⟩

/-- Helper: a renderer already in fullscreen mode uses the fullscreen
strategy and stays in fullscreen mode. -/
theorem present_stays_fullscreen (s : RendererState) (call : PresentCall)
    (h : s.inline_mode = false) :
    (present s call).fullscreen_used = true
    ∧ (present s call).state.inline_mode = false := by
  simp [present, h]

/-- Helper: from a fullscreen-mode state, every later call on the same
instance uses the fullscreen strategy, and the mode never reverts. -/
theorem present_all_fullscreen (cs : List PresentCall) :
    ∀ s : RendererState, s.inline_mode = false →
      (∀ b ∈ (present_all s cs).2, b = true)
      ∧ (present_all s cs).1.inline_mode = false := by
  induction cs with
  | nil => intro s h; simpa [present_all] using h
  | cons c cs ih =>
    intro s h
    have hstep := present_stays_fullscreen s c h
    have hrec := ih (present s c).state hstep.2
    simp only [present_all]
    refine ⟨?_, hrec.2⟩
    intro b hb
    rcases List.mem_cons.mp hb with rfl | hb'
    · exact hstep.1
    · exact hrec.1 b hb'

/-- C2.  As soon as one presented frame's line count exceeds the terminal
row count, that call and every subsequent `present` call on the same
instance use the fullscreen strategy; the mode never reverts to inline,
whatever the line counts and terminal sizes of the later frames. -/
theorem renderer_fullscreen_monotonic (s : RendererState) (call : PresentCall)
    (later : List PresentCall)
    (h : (max 1 call.term_rows).toNat
        < (if call.lines.isEmpty then 1 else call.lines.length)) :
    (present s call).fullscreen_used = true
    ∧ (present s call).state.inline_mode = false
    ∧ (∀ b ∈ (present_all (present s call).state later).2, b = true)
    ∧ (present_all (present s call).state later).1.inline_mode = false := by
  have key : (present s call).fullscreen_used = true
      ∧ (present s call).state.inline_mode = false := by
    cases hm : s.inline_mode
    · exact present_stays_fullscreen s call hm
    · have h1 : 1 < ((if call.lines = [] then [[]] else call.lines)
          : List (List Char)).length := by
        cases hq : call.lines <;> simp [hq] at h ⊢ <;> omega
      have h2 : call.term_rows < (((if call.lines = [] then [[]] else call.lines)
          : List (List Char)).length : Int) := by
        cases hq : call.lines <;> simp [hq] at h ⊢ <;> omega
      simp [present, hm, h1, h2]
  exact ⟨key.1, key.2, (present_all_fullscreen later _ key.2).1,
    (present_all_fullscreen later _ key.2).2⟩

/-- C2, witness: a 30-line frame on a 24-row terminal switches a fresh
renderer to fullscreen, and a following short frame still renders
fullscreen. -/
theorem renderer_fullscreen_monotonic_witness :
    (present Renderer.init ⟨List.replicate 30 "x".toList, none, false, 24⟩).fullscreen_used = true
    ∧ ∀ b ∈ (present_all (present Renderer.init
          ⟨List.replicate 30 "x".toList, none, false, 24⟩).state
        [⟨["y".toList], none, false, 24⟩]).2, b = true := by
  have h := renderer_fullscreen_monotonic Renderer.init
    ⟨List.replicate 30 "x".toList, none, false, 24⟩
    [⟨["y".toList], none, false, 24⟩] (by decide)
  exact ⟨h.1, h.2.2.1⟩

set_option maxHeartbeats 2000000 in
/-- Helper: splitting always yields at least one segment. -/
theorem split_on_breaks_ne_nil (s : List Char) : split_on_breaks s ≠ [] := by
  induction s using split_on_breaks.induct with
  | _ => simp_all [split_on_breaks]

/-- Helper: a string with no break characters is a single segment. -/
theorem split_on_breaks_no_breaks (s : List Char) :
    (∀ c ∈ s, is_line_break c = false) → split_on_breaks s = [s] := by
  induction s using split_on_breaks.induct with
  | case1 => intro _; rfl
  | case2 rest ih =>
    intro h
    exact absurd (h '\r' (List.mem_cons_self _ _)) (by decide)
  | case3 c rest hcr hbr ih =>
    intro h
    have hc := h c (List.mem_cons_self c rest)
    simp [hc] at hbr
  | case4 c rest hcr hbr hnil ih =>
    intro _
    exact absurd hnil (split_on_breaks_ne_nil rest)
  | case5 c rest hcr hbr l ls hcons ih =>
    intro h
    have hr := ih (fun x hx => h x (List.mem_cons_of_mem _ hx))
    rw [split_on_breaks.eq_3 c rest hcr, if_neg hbr, hr]

/-- Helper: the number of segments is the break count plus one. -/
theorem split_on_breaks_length (s : List Char) :
    (split_on_breaks s).length = break_count s + 1 := by
  induction s using split_on_breaks.induct with
  | case1 => rfl
  | case2 rest ih =>
    rw [split_on_breaks.eq_2, break_count.eq_2, List.length_cons, ih]
  | case3 c rest hcr hbr ih =>
    rw [split_on_breaks.eq_3 c rest hcr, if_pos hbr,
      break_count.eq_3 c rest hcr, if_pos hbr, List.length_cons, ih]
    omega
  | case4 c rest hcr hbr hnil ih =>
    exact absurd hnil (split_on_breaks_ne_nil rest)
  | case5 c rest hcr hbr l ls hcons ih =>
    rw [split_on_breaks.eq_3 c rest hcr, if_neg hbr, hcons,
      break_count.eq_3 c rest hcr, if_neg hbr]
    rw [hcons] at ih
    simp only [List.length_cons] at ih ⊢
    omega

/-- Helper: when a non-empty string does not end in a break character,
the final segment of its split is non-empty. -/
theorem split_on_breaks_getLast_ne_nil (s : List Char) :
    s ≠ [] → (∀ cl, s.getLast? = some cl → is_line_break cl = false) →
      (split_on_breaks s).getLast? ≠ some [] := by
  induction s using split_on_breaks.induct with
  | case1 => intro hne _; exact absurd rfl hne
  | case2 rest ih =>
    intro hne hlast
    rw [split_on_breaks.eq_2]
    cases rest with
    | nil =>
      have := hlast '\n' (by decide)
      exact absurd this (by decide)
    | cons c2 rest2 =>
      have hlast2 : ∀ cl, (c2 :: rest2).getLast? = some cl → is_line_break cl = false := by
        intro cl hcl
        apply hlast
        rw [List.getLast?_cons_cons, List.getLast?_cons_cons]
        exact hcl
      have hh := ih (by simp) hlast2
      cases hsp : split_on_breaks (c2 :: rest2) with
      | nil => exact absurd hsp (split_on_breaks_ne_nil _)
      | cons b l2 =>
        rw [hsp] at hh
        rw [List.getLast?_cons_cons]
        exact hh
  | case3 c rest hcr hbr ih =>
    intro hne hlast
    rw [split_on_breaks.eq_3 c rest hcr, if_pos hbr]
    cases rest with
    | nil =>
      have := hlast c (by simp)
      simp [this] at hbr
    | cons c2 rest2 =>
      have hlast2 : ∀ cl, (c2 :: rest2).getLast? = some cl → is_line_break cl = false := by
        intro cl hcl
        apply hlast
        rw [List.getLast?_cons_cons]
        exact hcl
      have hh := ih (by simp) hlast2
      cases hsp : split_on_breaks (c2 :: rest2) with
      | nil => exact absurd hsp (split_on_breaks_ne_nil _)
      | cons b l2 =>
        rw [hsp] at hh
        rw [List.getLast?_cons_cons]
        exact hh
  | case4 c rest hcr hbr hnil ih =>
    intro _ _
    exact absurd hnil (split_on_breaks_ne_nil rest)
  | case5 c rest hcr hbr l ls hcons ih =>
    intro hne hlast
    rw [split_on_breaks.eq_3 c rest hcr, if_neg hbr, hcons]
    cases rest with
    | nil =>
      simp only [split_on_breaks] at hcons
      cases hcons
      simp
    | cons c2 rest2 =>
      cases ls with
      | nil => simp
      | cons l2 ls2 =>
        have hlast2 : ∀ cl, (c2 :: rest2).getLast? = some cl → is_line_break cl = false := by
          intro cl hcl
          apply hlast
          rw [List.getLast?_cons_cons]
          exact hcl
        have hh := ih (by simp) hlast2
        rw [hcons] at hh
        rw [List.getLast?_cons_cons]
        rwa [List.getLast?_cons_cons] at hh

/-- C4, amended.  A string with no break characters flattens to exactly
one line equal to itself (in particular the empty string gives one empty
line), and a string that does not end in a break character yields
exactly breakCount + 1 lines, split at the breaks.  (A trailing break is
dropped by splitlines, which is what the counterexample exhibits.) -/
theorem text_to_lines_break_structure :
    (∀ s : List Char, (∀ c ∈ s, is_line_break c = false) → text_to_lines s = [s])
    ∧ text_to_lines [] = [[]]
    ∧ (∀ s : List Char, (∀ cl, s.getLast? = some cl → is_line_break cl = false) →
        (text_to_lines s).length = break_count s + 1) := by
  refine ⟨?_, rfl, ?_⟩
  · intro s h
    have hsp := split_on_breaks_no_breaks s h
    cases s with
    | nil => rfl
    | cons c rest => simp [text_to_lines, splitlines, hsp]
  · intro s hlast
    by_cases hs : s = []
    · subst hs; rfl
    · have hg := split_on_breaks_getLast_ne_nil s hs hlast
      have hsplit : splitlines s = split_on_breaks s := by
        simp only [splitlines]
      have hemp : (split_on_breaks s).isEmpty = false := by
        cases hq : split_on_breaks s with
        | nil => exact absurd hq (split_on_breaks_ne_nil s)
        | cons a b => rfl
      simp only [text_to_lines]
      rw [hsplit, hemp]
      simp [split_on_breaks_length s]

/-- C4, witness: a break-free string is one line, and a string with
internal breaks (CR and CRLF) not ending in a break has
breakCount + 1 lines. -/
theorem text_to_lines_break_structure_witness :
    text_to_lines "hello".toList = ["hello".toList]
    ∧ (text_to_lines ('a' :: '\r' :: 'b' :: '\r' :: '\n' :: 'c' :: [])).length
        = break_count ('a' :: '\r' :: 'b' :: '\r' :: '\n' :: 'c' :: []) + 1 :=
  ⟨text_to_lines_break_structure.1 _ (by decide),
   text_to_lines_break_structure.2.2 _
     (fun cl hcl => by cases Option.some.inj hcl; decide)⟩

/-- C5, amended.  For every Input render: if bordered, the result is
exactly three lines — a top border of + and targetWidth dashes and +,
the inner-padding-surrounded visible content wrapped in vertical bars,
an identical bottom border — with caret (1, 1 + cursorWidth +
innerPadding); if not bordered, a single line equal to the visible
content padded to innerWidth only (without the surrounding innerPadding
spaces), with caret (0, cursorWidth + innerPadding).  Scenario B holds
as specified. -/
theorem input_render_structure :
    (∀ (tcols : Int) (st : Input),
      (st.bordered = true →
        (st.render tcols).lines =
          ['+' :: List.replicate (st.target_width tcols).toNat '-' ++ ['+'],
           '|' :: (List.replicate st.inner_padding.toNat ' '
              ++ (st.trim_to_width (st.inner_width tcols)).1
              ++ List.replicate st.inner_padding.toNat ' ') ++ ['|'],
           '+' :: List.replicate (st.target_width tcols).toNat '-' ++ ['+']]
        ∧ (st.render tcols).caret
            = some (1, 1 + ((st.trim_to_width (st.inner_width tcols)).2
                + st.inner_padding.toNat)))
      ∧ (st.bordered = false →
        (st.render tcols).lines = [(st.trim_to_width (st.inner_width tcols)).1]
        ∧ (st.render tcols).caret
            = some (0, (st.trim_to_width (st.inner_width tcols)).2
                + st.inner_padding.toNat)))
    ∧ Input.render 80 ⟨"hello".toList, 5, some 10, true, 1⟩
        = { lines := ["+----------+".toList, "| hello    |".toList,
                      "+----------+".toList],
            caret := some (1, 7) } := by
  refine ⟨fun tcols st => ⟨fun hb => ?_, fun hb => ?_⟩, by decide⟩
  · simp [Input.render, hb]
  · simp [Input.render, hb]

/-- C5, witness: the unbordered line equals the trimmed content alone,
and the Scenario B caret is (1, 7). -/
theorem input_render_structure_witness :
    (Input.render 80 ⟨"hi".toList, 2, some 6, false, 1⟩).lines
      = [((⟨"hi".toList, 2, some 6, false, 1⟩ : Input).trim_to_width
          ((⟨"hi".toList, 2, some 6, false, 1⟩ : Input).inner_width 80)).1]
    ∧ (Input.render 80 ⟨"hello".toList, 5, some 10, true, 1⟩).caret = some (1, 7) := by
  refine ⟨((input_render_structure.1 80 ⟨"hi".toList, 2, some 6, false, 1⟩).2 rfl).1, ?_⟩
  rw [input_render_structure.2]

/-- Helper: width of a cons. -/
theorem measure_width_cons (c : Char) (l : List Char) :
    measure_width (c :: l) = char_width c + measure_width l := by
  simp [measure_width]

/-- Helper: width of an empty string. -/
theorem measure_width_nil : measure_width ([] : List Char) = 0 := rfl

/-- Helper: width of a concatenation. -/
theorem measure_width_append (a b : List Char) :
    measure_width (a ++ b) = measure_width a + measure_width b := by
  simp [measure_width]

/-- Helper: width of a repeated character. -/
theorem measure_width_replicate (n : Nat) (c : Char) :
    measure_width (List.replicate n c) = n * char_width c := by
  simp [measure_width, List.map_replicate, List.sum_replicate, smul_eq_mul]

/-- Helper: on single-width characters, visual width is character
count. -/
theorem measure_width_eq_length (l : List Char) (h : ∀ c ∈ l, char_width c = 1) :
    measure_width l = l.length := by
  induction l with
  | nil => rfl
  | cons c cs ih =>
    rw [measure_width_cons, h c (List.mem_cons_self c cs),
      ih (fun x hx => h x (List.mem_cons_of_mem _ hx)), List.length_cons]
    omega

/-- Helper: width of a character-count left-justification. -/
theorem measure_width_ljust (s : List Char) (w : Nat) (f : Char) :
    measure_width (ljust s w f)
      = measure_width s + (w - s.length) * char_width f := by
  simp [ljust, measure_width_append, measure_width_replicate]

/-- Helper: every member is bounded by the foldr-max. -/
theorem le_foldr_max (l : List Nat) (x : Nat) (hx : x ∈ l) : x ≤ l.foldr max 0 := by
  induction l with
  | nil => simp at hx
  | cons a as ih =>
    rw [List.foldr_cons]
    rcases List.mem_cons.mp hx with rfl | h2
    · exact le_max_left _ _
    · exact le_trans (ih h2) (le_max_right _ _)

theorem char_width_plus : char_width '+' = 1 := by decide

theorem char_width_dash : char_width '-' = 1 := by decide

theorem char_width_pipe : char_width '|' = 1 := by decide

theorem char_width_space : char_width ' ' = 1 := by decide

/-- Helper: when the child lines and the title consist of single-width
characters only, every rendered Panel line has visual width
contentWidth + 2. -/
theorem panel_render_uniform (cr : RenderResult) (title : Option (List Char))
    (padding : Int)
    (hbody : ∀ l ∈ cr.lines, ∀ c ∈ l, char_width c = 1)
    (htitle : ∀ t, title = some t → ∀ c ∈ t, char_width c = 1) :
    ∀ l ∈ (panel_render cr title padding).lines,
      measure_width l = panel_content_width cr.lines title padding + 2 := by
  have hlab1 : ∀ c ∈ panel_label title, char_width c = 1 := by
    intro c hc
    cases ht : title with
    | none => rw [ht] at hc; simp [panel_label] at hc
    | some tt =>
      rw [ht] at hc
      by_cases hte : tt.isEmpty
      · simp [panel_label, hte] at hc
      · simp [panel_label, hte] at hc
        rcases hc with rfl | hc2 | rfl
        · decide
        · exact htitle tt ht c hc2
        · decide
  have hlabmeq : measure_width (panel_label title) = (panel_label title).length :=
    measure_width_eq_length _ hlab1
  have hcw1 : panel_inner_width cr.lines + padding.toNat * 2
      ≤ panel_content_width cr.lines title padding := le_max_left _ _
  have hcw2 : measure_width (panel_label title)
      ≤ panel_content_width cr.lines title padding := le_max_right _ _
  intro l hl
  simp only [panel_render] at hl
  rcases List.mem_cons.mp hl with rfl | hl2
  · by_cases hle : (panel_label title).isEmpty
    · rw [if_pos hle]
      simp only [measure_width_append, measure_width_cons, measure_width_nil,
        measure_width_replicate, char_width_plus, char_width_dash]
      omega
    · rw [if_neg hle]
      simp only [measure_width_append, measure_width_cons, measure_width_nil,
        measure_width_ljust, char_width_plus, char_width_dash, hlabmeq]
      omega
  · rcases List.mem_append.mp hl2 with hl3 | hl4
    · rcases List.mem_append.mp hl3 with hl5 | hl6
      · rcases List.mem_append.mp hl5 with hl7 | hl8
        · -- leading blank rows
          rw [List.eq_of_mem_replicate hl7]
          simp only [measure_width_append, measure_width_cons, measure_width_nil,
            measure_width_replicate, char_width_pipe, char_width_space]
          omega
        · -- body rows
          obtain ⟨line, hline, rfl⟩ := List.mem_map.mp hl8
          have hml : measure_width line = line.length :=
            measure_width_eq_length line (hbody line hline)
          have hin : measure_width line ≤ panel_inner_width cr.lines :=
            le_foldr_max _ _ (List.mem_map_of_mem measure_width hline)
          simp only [measure_width_append, measure_width_cons, measure_width_nil,
            measure_width_ljust, measure_width_replicate, char_width_pipe,
            char_width_space, pad_to_width, List.length_append,
            List.length_replicate]
          omega
      · -- trailing blank rows
        rw [List.eq_of_mem_replicate hl6]
        simp only [measure_width_append, measure_width_cons, measure_width_nil,
          measure_width_replicate, char_width_pipe, char_width_space]
        omega
    · -- bottom border
      rcases List.mem_singleton.mp hl4 with rfl
      simp only [measure_width_append, measure_width_cons, measure_width_nil,
        measure_width_replicate, char_width_plus, char_width_dash]
      omega

/-- C10, amended.  For every Panel whose child flattens successfully,
when every character of the child's flattened lines and of the title has
visual width 1, all rendered Panel lines have the same visual width,
namely contentWidth + 2.  (A wide character breaks this, as the
counterexample shows, because the body right-justification pads by
character count.) -/
theorem panel_lines_uniform_width (tc : Int) (child : Node)
    (title : Option (List Char)) (padding : Int) (cr r : RenderResult)
    (hchild : render_node tc child = .ok cr)
    (h : render_node tc (.panel child title padding) = .ok r)
    (hbody : ∀ l ∈ cr.lines, ∀ c ∈ l, char_width c = 1)
    (htitle : ∀ t, title = some t → ∀ c ∈ t, char_width c = 1) :
    ∀ l ∈ r.lines, measure_width l = panel_content_width cr.lines title padding + 2 := by
  simp only [render_node, hchild, Except.ok.injEq] at h
  subst h
  exact panel_render_uniform cr title padding hbody htitle

/-- C10, witness at the Scenario A panel, whose content is ASCII. -/
theorem panel_lines_uniform_width_witness :
    measure_width "+ T -+".toList
      = panel_content_width ["a".toList, "bb".toList] (some "T".toList) 1 + 2 :=
  panel_lines_uniform_width 80 (.seq [.text "a".toList, .text "bb".toList])
    (some "T".toList) 1 _ _ rfl rfl (by decide)
    (fun tt ht => by cases Option.some.inj ht; decide)
    "+ T -+".toList (by decide)

end Pink
